import Mathlib

/-
Verification of the BasicSpatial grid index (src/spatial/BasicSpatial.hpp):
a fixed-resolution grid of buckets over 2-D points with an expanding-ring
nearest-neighbor search.  The C++ class is shallowly embedded: the grid is a
function from cell coordinates to the list of points stored in that cell
(mirroring `std::vector<std::vector<std::list<Point>>> GRID`), the by-reference
scalar outputs `nearest_`, `dist_`, `fstset_` of `find_nearest` become an
explicit `ScanSt` record threaded through the scan, and the `while (!fstset)`
loop of `nearest_neighbor` becomes a fuel-indexed recursion (the fuel chosen
large enough; sufficiency is proved below).
-/

namespace BasicSpatial

/-- Source: `const int DIV = 10;` (bucket width). -/
def DIV : Int := 10

/-- Source: `const int MAX = 1000;` (coordinate universe bound). -/
def MAX : Int := 1000

/-- The external Point collaborator (its header `SpatialBase.h` is not under
src/).  Per spec §3/§6 it exposes two coordinates accessed by index 0/1 and a
distance function.  Coordinates are embedded as integers, the form used by
every scenario in the spec. -/
structure Pt where
  x : Int
  y : Int
deriving DecidableEq

/-- Source usage `point.get(0)` / `point.get(1)`: coordinate access by axis
index. -/
def Pt.get (p : Pt) (i : Nat) : Int := if i = 0 then p.x else p.y

/-- Modelled from the spec: the Point collaborator's `distance` (not under
src/) is, per spec §6, a metric, and per the §8 scenarios the Euclidean
distance.  The embedding uses the squared Euclidean distance, an exact
integer; the code only ever compares distances (`<`, and the spec's `≤`),
and squaring is strictly monotone on nonnegative reals, so every comparison
agrees with the Euclidean one. -/
def Pt.distance (p q : Pt) : Int := (p.x - q.x) ^ 2 + (p.y - q.y) ^ 2

/-- The grid state: cell `(gx, gy)` holds the list of points inserted into it,
in insertion order.  Mirrors the member
`std::vector<std::vector<std::list<Point>>> GRID` of dimensions
`(MAX/DIV)+1 x (MAX/DIV)+1`; cells outside that range do not exist in the
C++ object, and every grid reachable by the public API is empty there. -/
def Grid : Type := Int → Int → List Pt

/-- The freshly constructed structure: every cell empty
(`BasicSpatial() {}` with the member initializer filling each cell with an
empty `std::list`). -/
def emptyGrid : Grid := fun _ _ => []

/-- Source: `int hash_func (int coord) { return (float(coord) / DIV); }`.
The single-precision quotient truncated to `int` equals integer division
truncating toward zero (`Int.tdiv`, the C semantics) for every coordinate
of magnitude below `2^21 * DIV`, far beyond the coordinate universe
`[0, MAX]`; beyond that only the sign and the comparison against
`hash_func MAX` are ever used, on which the two agree for all 32-bit inputs. -/
def hash_func (coord : Int) : Int := Int.tdiv coord DIV

/-- Source `insert` (lines 47-58): hash both coordinates, clamp each into
`[0, hash_func MAX]` by the four `if` statements in source order, then
`GRID[x][y].push_back(new_point)`. -/
def insert (g : Grid) (new_point : Pt) : Grid :=
  let x := hash_func (new_point.get 0)
  let y := hash_func (new_point.get 1)
  let x := if x < 0 then 0 else x
  let y := if y < 0 then 0 else y
  let x := if x > hash_func MAX then hash_func MAX else x
  let y := if y > hash_func MAX then hash_func MAX else y
  fun i j => if i = x ∧ j = y then g i j ++ [new_point] else g i j

/-- The triple of by-reference outputs of `find_nearest`: the current best
point `nearest_`, its distance `dist_`, and the found flag `fstset_`. -/
structure ScanSt where
  nearest : Pt
  dist : Int
  fstset : Bool
deriving DecidableEq

/-- One point visited during a cell scan: the body of
`for (auto i : GRID[..][..]) { if (!fstset_) {...} else if (dist <) {...} }`. -/
def visit (reference_ p : Pt) (st : ScanSt) : ScanSt :=
  if !st.fstset then ⟨p, p.distance reference_, true⟩
  else if p.distance reference_ < st.dist then ⟨p, p.distance reference_, true⟩
  else st

/-- Scanning a list of points left to right, threading the state. -/
def scanPts (reference_ : Pt) : List Pt → ScanSt → ScanSt
  | [], st => st
  | p :: ps, st => scanPts reference_ ps (visit reference_ p st)

/-- Descending run of `n` integers starting at `curx`:
`[curx, curx - 1, ..., curx - n + 1]`. -/
def colListAux : Int → Nat → List Int
  | _, 0 => []
  | curx, n + 1 => curx :: colListAux (curx - 1) n

/-- The descending loop counter of `for (int curx = maxx; curx >= minx; curx--)`:
the column indices visited, in visiting order (empty when `maxx < minx`). -/
def colList (maxx minx : Int) : List Int :=
  colListAux maxx (maxx - minx + 1).toNat

/-- The cells `find_nearest` reads, in reading order.  Mirrors lines 61-105:
the four one-sided clamps at the top (`minx`, `miny` raised to 0; `maxx`,
`maxy` lowered to `hash_func MAX`), then per column `curx` from `maxx` down
to `minx` the top-row cell `GRID[curx][maxy]` followed by the bottom-row cell
`GRID[curx][miny]`.  The in-loop clamps (lines 70-76) fire, if at all, on the
first iteration before any grid access and persistently overwrite the
parameter copies, so they are applied once up front here; the two clamps on
`curx` itself can never fire when the loop runs (then
`0 ≤ minx ≤ curx ≤ maxx ≤ hash_func MAX`).  The commented-out vertical scan
(lines 107-137) is dead code and contributes nothing. -/
def cellsScanned (maxx maxy minx miny : Int) : List (Int × Int) :=
  let minx := if minx < 0 then 0 else minx
  let miny := if miny < 0 then 0 else miny
  let maxx := if maxx > hash_func MAX then hash_func MAX else maxx
  let maxy := if maxy > hash_func MAX then hash_func MAX else maxy
  let maxy := if maxy < 0 then 0 else maxy
  let maxy := if maxy > hash_func MAX then hash_func MAX else maxy
  let miny := if miny > hash_func MAX then hash_func MAX else miny
  (colList maxx minx).flatMap (fun curx => [(curx, maxy), (curx, miny)])

/-- Source `find_nearest` (lines 60-138): scan the points of the perimeter
cells in order, updating `(nearest_, dist_, fstset_)`. -/
def find_nearest (g : Grid) (maxx maxy minx miny : Int) (reference_ : Pt)
    (st : ScanSt) : ScanSt :=
  scanPts reference_
    ((cellsScanned maxx maxy minx miny).flatMap (fun c => g c.1 c.2)) st

/-- Distance of the current window bounds from the sentinel condition of the
`while` loop (how many more times each bound must grow before
`curmaxy > hash(MAX) && curmaxx > hash(MAX) && curminx < 0 && curminy < 0`
holds); zero exactly when the sentinel condition already holds.  Used as the
fuel bound of the loop embedding. -/
def ringMeasure (curmaxx curmaxy curminx curminy : Int) : Nat :=
  (hash_func MAX + 1 - curmaxy).toNat + (hash_func MAX + 1 - curmaxx).toNat +
    (curminx + 1).toNat + (curminy + 1).toNat

/-- The local state of `nearest_neighbor` before the loop:
`Point nearest = Point({0, 0}); double dist = __DBL_MAX__; bool fstset = 0;`.
The `__DBL_MAX__` initializer of `dist` is never read while `fstset` is
false (the scan only compares `dist_` in the branch where `fstset_` is
already true, and every branch that sets `fstset_` also overwrites `dist_`),
so its value is irrelevant; the embedding uses 0. -/
def initSt : ScanSt := ⟨⟨0, 0⟩, 0, false⟩

/-- The `while (!fstset)` loop of `nearest_neighbor` (lines 152-164), as a
fuel-indexed recursion; `none` means the fuel ran out before the loop
exited, i.e. the loop performs more iterations than the fuel.  Each
iteration: return the sentinel `Point({-1,-1})` if all four bounds are
outside the grid; otherwise scan the current window, grow every bound by
one, and, if the scan has found a candidate, scan the grown window once
more (after which `!fstset` fails and the loop returns `nearest`). -/
def nnLoop (g : Grid) (reference : Pt) :
    Nat → Int → Int → Int → Int → ScanSt → Option Pt
  | 0, _, _, _, _, _ => none
  | fuel + 1, curmaxx, curmaxy, curminx, curminy, st =>
    if st.fstset then some st.nearest
    else if curmaxy > hash_func MAX ∧ curmaxx > hash_func MAX ∧
        curminx < 0 ∧ curminy < 0 then
      some ⟨-1, -1⟩
    else
      let st1 := find_nearest g curmaxx curmaxy curminx curminy reference st
      let st2 := if st1.fstset then
          find_nearest g (curmaxx + 1) (curmaxy + 1) (curminx - 1) (curminy - 1)
            reference st1
        else st1
      nnLoop g reference fuel (curmaxx + 1) (curmaxy + 1) (curminx - 1)
        (curminy - 1) st2

/-- Fuel sufficient for the loop to exit on its own (proved below): one more
than the number of growth steps after which the sentinel condition holds for
the initial degenerate window at the reference's home cell. -/
def fuelFor (reference : Pt) : Nat :=
  let x := hash_func (reference.get 0)
  let y := hash_func (reference.get 1)
  ringMeasure x y x y + 1

/-- Source `nearest_neighbor` (lines 141-166): start from the degenerate
window at the reference's home cell `(hash_func x, hash_func y)` (not
clamped) and run the expanding-ring loop.  The `getD` default is never used:
`fuelFor` is enough fuel for the loop to exit (theorem `claim_C4_amended`). -/
def nearest_neighbor (g : Grid) (reference : Pt) : Pt :=
  let x := hash_func (reference.get 0)
  let y := hash_func (reference.get 1)
  (nnLoop g reference (fuelFor reference) x y x y initSt).getD ⟨-1, -1⟩

/-- All points stored in the structure: the concatenation of the contents of
the `(MAX/DIV)+1 x (MAX/DIV)+1` cells of `GRID` (the cells that exist in the
C++ object). -/
def storedPoints (g : Grid) : List Pt :=
  (List.range ((hash_func MAX).toNat + 1)).flatMap (fun i =>
    (List.range ((hash_func MAX).toNat + 1)).flatMap (fun j =>
      g (i : Int) (j : Int)))

/-- The nearest-neighbor contract of spec §8 P3 at one input: the returned
point is stored, and its distance to the reference is at most that of every
stored point. -/
def isTrueNN (g : Grid) (reference p : Pt) : Prop :=
  p ∈ storedPoints g ∧ ∀ q ∈ storedPoints g, p.distance reference ≤ q.distance reference

/-- The cell the spec's invariant I1 / §8 P1-P2 assigns to a point:
`clamp(floor(coord/DIV), 0, MAX/DIV)` on each axis (`Int.fdiv` is the
floor division the spec's `floor(x/DIV)` denotes).  Stated from the spec's
words, to be compared with the cell `insert` actually writes. -/
def specCell (p : Pt) : Int × Int :=
  (min (max (Int.fdiv p.x DIV) 0) (MAX / DIV),
    min (max (Int.fdiv p.y DIV) 0) (MAX / DIV))

/-- `insert` and queries in state-passing form: `nearest_neighbor` is a read
of the structure; the source method writes no grid cell (`find_nearest`
mutates only the caller's scalar locals), so the post-state is the
pre-state. -/
def nnOp (g : Grid) (reference : Pt) : Pt × Grid :=
  (nearest_neighbor g reference, g)

end BasicSpatial

namespace BasicSpatial

/-- The grid dimension constant: `hash_func MAX = 100`. -/
theorem hashMAX_eq : hash_func MAX = 100 := by decide

theorem scanPts_append (r : Pt) (a b : List Pt) (st : ScanSt) :
    scanPts r (a ++ b) st = scanPts r b (scanPts r a st) := by
  induction a generalizing st with
  | nil => rfl
  | cons p ps ih => simp [scanPts, ih]

theorem scanPts_fstset_mono (r : Pt) (l : List Pt) (st : ScanSt)
    (h : st.fstset = true) : (scanPts r l st).fstset = true := by
  induction l generalizing st with
  | nil => exact h
  | cons p ps ih =>
    simp only [scanPts]
    apply ih
    simp only [visit, h]
    split_ifs <;> simp [h]

/-- After scanning a list from a state that already holds a candidate with its
distance recorded, the state still holds a candidate with its distance
recorded, the distance has not increased, the candidate is the old one or one
of the scanned points, and the distance is at most that of every scanned
point. -/
theorem scanPts_good (r : Pt) (l : List Pt) (st : ScanSt)
    (h1 : st.fstset = true) (h2 : st.dist = st.nearest.distance r) :
    (scanPts r l st).fstset = true ∧
      (scanPts r l st).dist = (scanPts r l st).nearest.distance r ∧
      (scanPts r l st).dist ≤ st.dist ∧
      ((scanPts r l st).nearest = st.nearest ∨ (scanPts r l st).nearest ∈ l) ∧
      ∀ q ∈ l, (scanPts r l st).dist ≤ q.distance r := by
  induction l generalizing st with
  | nil => exact ⟨h1, h2, le_refl _, Or.inl rfl, by simp⟩
  | cons p ps ih =>
    simp only [scanPts]
    have hv : visit r p st = if p.distance r < st.dist
        then ⟨p, p.distance r, true⟩ else st := by
      simp [visit, h1]
    by_cases hlt : p.distance r < st.dist
    · rw [hv, if_pos hlt]
      obtain ⟨g1, g2, g3, g4, g5⟩ := ih ⟨p, p.distance r, true⟩ rfl rfl
      refine ⟨g1, g2, le_trans g3 (le_of_lt hlt), ?_, ?_⟩
      · rcases g4 with h | h
        · exact Or.inr (by simp [h])
        · exact Or.inr (List.mem_cons_of_mem _ h)
      · intro q hq
        rcases List.mem_cons.mp hq with rfl | hq
        · exact g3
        · exact g5 q hq
    · rw [hv, if_neg hlt]
      obtain ⟨g1, g2, g3, g4, g5⟩ := ih st h1 h2
      refine ⟨g1, g2, g3, ?_, ?_⟩
      · rcases g4 with h | h
        · exact Or.inl h
        · exact Or.inr (List.mem_cons_of_mem _ h)
      · intro q hq
        rcases List.mem_cons.mp hq with rfl | hq
        · exact le_trans g3 (le_of_not_lt hlt)
        · exact g5 q hq

/-- Scanning a non-empty list from a state with the found flag still clear
produces a state holding one of the scanned points, with its distance
recorded, at most the distance of every scanned point. -/
theorem scanPts_unset (r : Pt) (l : List Pt) (st : ScanSt)
    (h : st.fstset = false) (hne : l ≠ []) :
    (scanPts r l st).fstset = true ∧
      (scanPts r l st).dist = (scanPts r l st).nearest.distance r ∧
      (scanPts r l st).nearest ∈ l ∧
      ∀ q ∈ l, (scanPts r l st).dist ≤ q.distance r := by
  cases l with
  | nil => exact absurd rfl hne
  | cons p ps =>
    simp only [scanPts]
    have hv : visit r p st = ⟨p, p.distance r, true⟩ := by simp [visit, h]
    rw [hv]
    obtain ⟨g1, g2, g3, g4, g5⟩ := scanPts_good r ps ⟨p, p.distance r, true⟩ rfl rfl
    refine ⟨g1, g2, ?_, ?_⟩
    · rcases g4 with h | h
      · exact h ▸ List.mem_cons_self _ _
      · exact List.mem_cons_of_mem _ h
    · intro q hq
      rcases List.mem_cons.mp hq with rfl | hq
      · exact g3
      · exact g5 q hq

theorem mem_colListAux (curx : Int) (n : Nat) (a : Int) :
    a ∈ colListAux curx n ↔ curx - n < a ∧ a ≤ curx := by
  induction n generalizing curx with
  | zero => simp [colListAux]
  | succ m ih =>
    simp only [colListAux, List.mem_cons, ih]
    constructor
    · rintro (rfl | ⟨h1, h2⟩) <;> omega
    · rintro ⟨h1, h2⟩
      by_cases ha : a = curx
      · exact Or.inl ha
      · exact Or.inr ⟨by omega, by omega⟩

theorem mem_colList (maxx minx a : Int) :
    a ∈ colList maxx minx ↔ minx ≤ a ∧ a ≤ maxx := by
  rw [colList, mem_colListAux]
  omega

theorem mem_cellsScanned (maxx maxy minx miny cx cy : Int) :
    (cx, cy) ∈ cellsScanned maxx maxy minx miny ↔
      max minx 0 ≤ cx ∧ cx ≤ min maxx (hash_func MAX) ∧
        (cy = min (max maxy 0) (hash_func MAX) ∨
          cy = min (max miny 0) (hash_func MAX)) := by
  rw [hashMAX_eq]
  simp only [cellsScanned, hashMAX_eq, List.mem_flatMap, mem_colList,
    List.mem_cons, List.mem_singleton, List.not_mem_nil, or_false,
    Prod.mk.injEq]
  constructor
  · rintro ⟨curx, ⟨ha, hb⟩, h | h⟩ <;>
      · obtain ⟨rfl, rfl⟩ := h
        split_ifs at * <;> omega
  · rintro ⟨h1, h2, h3⟩
    refine ⟨cx, ?_, ?_⟩
    · split_ifs <;> omega
    · rcases h3 with rfl | rfl
      · left; constructor
        · rfl
        · split_ifs <;> omega
      · right; constructor
        · rfl
        · split_ifs <;> omega

end BasicSpatial

namespace BasicSpatial

theorem ringMeasure_decrease (maxx maxy minx miny : Int)
    (h : ¬(maxy > hash_func MAX ∧ maxx > hash_func MAX ∧ minx < 0 ∧ miny < 0)) :
    ringMeasure (maxx + 1) (maxy + 1) (minx - 1) (miny - 1) <
      ringMeasure maxx maxy minx miny := by
  simp only [ringMeasure, hashMAX_eq] at *
  omega

/-- With more fuel than the ring measure of the starting window, the loop
exits on its own (the fuel never runs out): termination of the
`while (!fstset)` loop. -/
theorem nnLoop_isSome (g : Grid) (r : Pt) (fuel : Nat)
    (maxx maxy minx miny : Int) (st : ScanSt)
    (h : ringMeasure maxx maxy minx miny < fuel) :
    (nnLoop g r fuel maxx maxy minx miny st).isSome = true := by
  induction fuel generalizing maxx maxy minx miny st with
  | zero => omega
  | succ n ih =>
    simp only [nnLoop]
    split
    · rfl
    · split
      · rfl
      · apply ih
        have := ringMeasure_decrease maxx maxy minx miny (by assumption)
        omega

theorem find_nearest_emptyGrid (maxx maxy minx miny : Int) (r : Pt)
    (st : ScanSt) :
    find_nearest emptyGrid maxx maxy minx miny r st = st := by
  have hnil : (cellsScanned maxx maxy minx miny).flatMap
      (fun c => emptyGrid c.1 c.2) = [] := by
    induction cellsScanned maxx maxy minx miny with
    | nil => rfl
    | cons c cs ih => simp [emptyGrid, ih]
  rw [find_nearest, hnil]
  rfl

/-- On the empty structure no scan ever sets the found flag, so the loop runs
until the sentinel condition holds and returns `Point({-1,-1})`. -/
theorem nnLoop_emptyGrid (r : Pt) (fuel : Nat) (maxx maxy minx miny : Int)
    (st : ScanSt) (hst : st.fstset = false)
    (h : ringMeasure maxx maxy minx miny < fuel) :
    nnLoop emptyGrid r fuel maxx maxy minx miny st = some ⟨-1, -1⟩ := by
  induction fuel generalizing maxx maxy minx miny st with
  | zero => omega
  | succ n ih =>
    simp only [nnLoop, hst, Bool.false_eq_true, if_false,
      find_nearest_emptyGrid]
    split
    · rfl
    · exact ih _ _ _ _ st hst
        (by have := ringMeasure_decrease maxx maxy minx miny (by assumption); omega)

theorem hash_bounds (z : Int) (h0 : 0 ≤ z) (h1 : z ≤ MAX) :
    0 ≤ hash_func z ∧ hash_func z ≤ hash_func MAX := by
  rw [hash_func, hashMAX_eq, Int.tdiv_eq_ediv h0 (by decide : (0:Int) ≤ DIV)]
  simp only [DIV, MAX] at *
  omega

/-- The clamped truncating hash of the source equals the clamped floor
division of the spec: the two roundings differ only on negative
non-multiples of `DIV`, where both clamp to 0. -/
theorem clamp_hash_eq_specClamp (z : Int) :
    (if (if hash_func z < 0 then 0 else hash_func z) > hash_func MAX
        then hash_func MAX
        else if hash_func z < 0 then 0 else hash_func z) =
      min (max (Int.fdiv z DIV) 0) (MAX / DIV) := by
  rw [hashMAX_eq, Int.fdiv_eq_ediv z (by decide : (0:Int) ≤ DIV)]
  by_cases h0 : 0 ≤ z
  · rw [hash_func, Int.tdiv_eq_ediv h0 (by decide : (0:Int) ≤ DIV)]
    simp only [DIV, MAX]
    split_ifs <;> omega
  · have hnn : (0:Int) ≤ -z := by omega
    have ht : hash_func z = -((-z) / DIV) := by
      rw [hash_func]
      conv_lhs => rw [show z = -(-z) by ring]
      rw [Int.neg_tdiv, Int.tdiv_eq_ediv hnn (by decide : (0:Int) ≤ DIV)]
    rw [ht]
    simp only [DIV, MAX]
    split_ifs <;> omega

end BasicSpatial

namespace BasicSpatial

/-- `insert` writes exactly the cell `specCell` names: the source's
truncate-then-clamp addressing coincides with the spec's
`clamp(floor(coord/DIV), 0, MAX/DIV)` addressing on both axes. -/
theorem insert_apply (g : Grid) (p : Pt) (i j : Int) :
    insert g p i j =
      if i = (specCell p).1 ∧ j = (specCell p).2 then g i j ++ [p]
      else g i j := by
  have e0 : Pt.get p 0 = p.x := rfl
  have e1 : Pt.get p 1 = p.y := rfl
  simp only [insert, e0, e1, clamp_hash_eq_specClamp, specCell]

/-- C2: for every window and reference point, `find_nearest` examines exactly
the cells of the top row and the bottom row (each bound clamped into
`[0, hash_func MAX]`, as the source clamps it) across every `x` in the
clamped range `[minx..maxx]`: a cell is read if and only if its `x` lies in
that range and its `y` is the clamped `maxy` or the clamped `miny`.  In
particular no cell of any intermediate row — hence no left or right ring
column — is ever read. -/
theorem claim_C2 (g : Grid) (reference : Pt) (st : ScanSt)
    (maxx maxy minx miny cx cy : Int) :
    (find_nearest g maxx maxy minx miny reference st =
      scanPts reference
        ((cellsScanned maxx maxy minx miny).flatMap (fun c => g c.1 c.2)) st) ∧
    ((cx, cy) ∈ cellsScanned maxx maxy minx miny ↔
      max minx 0 ≤ cx ∧ cx ≤ min maxx (hash_func MAX) ∧
        (cy = min (max maxy 0) (hash_func MAX) ∨
          cy = min (max miny 0) (hash_func MAX))) :=
  ⟨rfl, mem_cellsScanned maxx maxy minx miny cx cy⟩

/-- C3: `nearest_neighbor` on a structure into which no point has ever been
inserted returns the sentinel point `(-1, -1)`, for every reference point. -/
theorem claim_C3 (reference : Pt) :
    nearest_neighbor emptyGrid reference = ⟨-1, -1⟩ := by
  simp only [nearest_neighbor, fuelFor]
  rw [nnLoop_emptyGrid _ _ _ _ _ _ _ rfl (by omega)]
  rfl

/-- C5: `insert` places its point in exactly the cell
`(clamp(floor(x/DIV), 0, MAX/DIV), clamp(floor(y/DIV), 0, MAX/DIV))`
(`specCell`, written with floor division from the spec's words): that cell's
list is extended by the point, every other cell is unchanged, and a negative
coordinate lands in cell index 0 while a coordinate above `MAX` lands in the
maximum cell index `MAX/DIV` on that axis. -/
theorem claim_C5 (g : Grid) (p : Pt) :
    (insert g p (specCell p).1 (specCell p).2 =
        g (specCell p).1 (specCell p).2 ++ [p]) ∧
      (∀ i j : Int, ¬(i = (specCell p).1 ∧ j = (specCell p).2) →
        insert g p i j = g i j) ∧
      (p.x < 0 → (specCell p).1 = 0) ∧
      (p.x > MAX → (specCell p).1 = MAX / DIV) ∧
      (p.y < 0 → (specCell p).2 = 0) ∧
      (p.y > MAX → (specCell p).2 = MAX / DIV) := by
  refine ⟨?_, ?_, ?_, ?_, ?_, ?_⟩
  · rw [insert_apply, if_pos ⟨rfl, rfl⟩]
  · intro i j h
    rw [insert_apply, if_neg h]
  · intro h
    have := Int.fdiv_eq_ediv p.x (by decide : (0:Int) ≤ DIV)
    simp only [specCell, this, MAX, DIV] at *
    omega
  · intro h
    have := Int.fdiv_eq_ediv p.x (by decide : (0:Int) ≤ DIV)
    simp only [specCell, this, MAX, DIV] at *
    omega
  · intro h
    have := Int.fdiv_eq_ediv p.y (by decide : (0:Int) ≤ DIV)
    simp only [specCell, this, MAX, DIV] at *
    omega
  · intro h
    have := Int.fdiv_eq_ediv p.y (by decide : (0:Int) ≤ DIV)
    simp only [specCell, this, MAX, DIV] at *
    omega

/-- C5 witness: a point with a negative `x` and an `y` above `MAX` is
appended to cell `(0, MAX/DIV) = (0, 100)` and the clamping conclusions
hold there. -/
theorem wit_C5 :
    (insert emptyGrid ⟨-3, 2000⟩ (specCell ⟨-3, 2000⟩).1 (specCell ⟨-3, 2000⟩).2 =
        emptyGrid (specCell ⟨-3, 2000⟩).1 (specCell ⟨-3, 2000⟩).2 ++ [⟨-3, 2000⟩]) ∧
      insert emptyGrid ⟨-3, 2000⟩ 5 5 = emptyGrid 5 5 ∧
      (specCell ⟨-3, 2000⟩).1 = 0 ∧ (specCell ⟨-3, 2000⟩).2 = MAX / DIV :=
  ⟨(claim_C5 emptyGrid ⟨-3, 2000⟩).1,
    (claim_C5 emptyGrid ⟨-3, 2000⟩).2.1 5 5 (by decide),
    (claim_C5 emptyGrid ⟨-3, 2000⟩).2.2.1 (by decide),
    (claim_C5 emptyGrid ⟨-3, 2000⟩).2.2.2.2.2 (by decide)⟩

/-- C8: `insert` always succeeds: there is exactly one cell whose list is
extended — by appending the point, so its length grows by one — every other
cell is unchanged, and inserting the same point again appends a second copy
to the same cell (multiset semantics, duplicates permitted). -/
theorem claim_C8 (g : Grid) (p : Pt) :
    ∃ c : Int × Int,
      insert g p c.1 c.2 = g c.1 c.2 ++ [p] ∧
      (insert g p c.1 c.2).length = (g c.1 c.2).length + 1 ∧
      (∀ i j : Int, ¬(i = c.1 ∧ j = c.2) → insert g p i j = g i j) ∧
      insert (insert g p) p c.1 c.2 = g c.1 c.2 ++ [p] ++ [p] := by
  refine ⟨specCell p, ?_, ?_, ?_, ?_⟩
  · rw [insert_apply, if_pos ⟨rfl, rfl⟩]
  · rw [insert_apply, if_pos ⟨rfl, rfl⟩]
    simp
  · intro i j h
    rw [insert_apply, if_neg h]
  · rw [insert_apply, if_pos ⟨rfl, rfl⟩, insert_apply, if_pos ⟨rfl, rfl⟩]

/-- C8 witness: inserting `(5, 5)` twice into the empty structure puts two
copies into one cell and leaves another cell empty. -/
theorem wit_C8 :
    ∃ c : Int × Int,
      insert emptyGrid ⟨5, 5⟩ c.1 c.2 = emptyGrid c.1 c.2 ++ [⟨5, 5⟩] ∧
      (insert emptyGrid ⟨5, 5⟩ c.1 c.2).length = (emptyGrid c.1 c.2).length + 1 ∧
      (∀ i j : Int, ¬(i = c.1 ∧ j = c.2) → insert emptyGrid ⟨5, 5⟩ i j = emptyGrid i j) ∧
      insert (insert emptyGrid ⟨5, 5⟩) ⟨5, 5⟩ c.1 c.2 =
        emptyGrid c.1 c.2 ++ [⟨5, 5⟩] ++ [⟨5, 5⟩] :=
  claim_C8 emptyGrid ⟨5, 5⟩

/-- C9: every grid access is within bounds `[0, MAX/DIV]` on both axes, for
arbitrary integer window bounds and point coordinates: every cell
`find_nearest` reads lies in range, and the only cell `insert` writes lies
in range, so the embedding's indexing never leaves the
`(MAX/DIV)+1 x (MAX/DIV)+1` array. -/
theorem claim_C9 :
    (∀ maxx maxy minx miny cx cy : Int,
        (cx, cy) ∈ cellsScanned maxx maxy minx miny →
        0 ≤ cx ∧ cx ≤ hash_func MAX ∧ 0 ≤ cy ∧ cy ≤ hash_func MAX) ∧
      ∀ (g : Grid) (p : Pt) (i j : Int), insert g p i j ≠ g i j →
        0 ≤ i ∧ i ≤ hash_func MAX ∧ 0 ≤ j ∧ j ≤ hash_func MAX := by
  constructor
  · intro maxx maxy minx miny cx cy h
    rw [mem_cellsScanned] at h
    rw [hashMAX_eq] at *
    omega
  · intro g p i j h
    rw [insert_apply] at h
    by_cases hc : i = (specCell p).1 ∧ j = (specCell p).2
    · obtain ⟨rfl, rfl⟩ := hc
      rw [hashMAX_eq]
      simp only [specCell, MAX, DIV]
      omega
    · rw [if_neg hc] at h
      exact absurd rfl h

/-- C9 witness: the degenerate window at the origin reads cell `(0, 0)`,
which is in bounds, and inserting `(5, 5)` writes a cell in bounds. -/
theorem wit_C9 :
    ((0:Int) ≤ 0 ∧ (0:Int) ≤ hash_func MAX ∧ (0:Int) ≤ 0 ∧
        (0:Int) ≤ hash_func MAX) ∧
      ((0:Int) ≤ 0 ∧ (0:Int) ≤ hash_func MAX ∧ (0:Int) ≤ 0 ∧
        (0:Int) ≤ hash_func MAX) :=
  ⟨claim_C9.1 0 0 0 0 0 0 (by decide),
    claim_C9.2 emptyGrid ⟨5, 5⟩ 0 0 (by decide)⟩

/-- C10: queries do not mutate the grid: in state-passing form the post-state
of `nearest_neighbor` is the pre-state — every cell's stored list is
identical before and after the call — so a second call with the same
reference point and no intervening insertion returns the same result. -/
theorem claim_C10 (g : Grid) (reference : Pt) :
    (nnOp g reference).2 = g ∧
      (∀ i j : Int, (nnOp g reference).2 i j = g i j) ∧
      nnOp (nnOp g reference).2 reference = nnOp g reference ∧
      (nnOp (nnOp g reference).2 reference).1 = (nnOp g reference).1 :=
  ⟨rfl, fun _ _ => rfl, rfl, rfl⟩

end BasicSpatial

namespace BasicSpatial

/-- C4 counterexample grid-dimension fuel bound: `4 * ((MAX/DIV) + 1) + 1`,
the uniform bound that `claim_C4_amended` proves for references with
coordinates in `[0, MAX]`. -/
def gridDimFuel : Nat := 405

/-- On the empty structure the loop keeps running at least as long as
`curminx` has not yet been decremented below zero: with fuel at most
`(curminx + 1).toNat` the fuel runs out (a lower bound on the iteration
count). -/
theorem nnLoop_emptyGrid_runs (r : Pt) (fuel : Nat)
    (maxx maxy minx miny : Int) (st : ScanSt) (hst : st.fstset = false)
    (h : fuel ≤ (minx + 1).toNat) :
    nnLoop emptyGrid r fuel maxx maxy minx miny st = none := by
  induction fuel generalizing maxx maxy minx miny st with
  | zero => rfl
  | succ n ih =>
    simp only [nnLoop, hst, Bool.false_eq_true, if_false,
      find_nearest_emptyGrid]
    rw [if_neg (by intro hs; omega)]
    exact ih _ _ _ _ st hst (by omega)

/-- C4 counterexample: for the reference `(10000, 10000)` (home cell
`(1000, 1000)`) on the empty structure, the expanding-window loop is still
running after `gridDimFuel = 405` iterations — more than the
`4*((MAX/DIV)+1)+1` iterations that bound every in-range query — so the
iteration count of `nearest_neighbor` is not bounded by any function of the
fixed grid dimensions alone: it grows with the reference's home-cell
coordinates (this run needs 2003 iterations to reach the sentinel
condition). -/
theorem cex_C4 :
    nnLoop emptyGrid ⟨10000, 10000⟩ gridDimFuel
      (hash_func 10000) (hash_func 10000) (hash_func 10000) (hash_func 10000)
      initSt = none :=
  nnLoop_emptyGrid_runs ⟨10000, 10000⟩ gridDimFuel _ _ _ _ initSt rfl
    (by decide)

/-- C4 (amended): for every structure state and every reference point the
expanding-window loop of `nearest_neighbor` terminates — the fuel
`fuelFor reference`, one more than the ring measure of the starting window,
is never exhausted — and for every reference whose coordinates lie in
`[0, MAX]` that fuel is at most `4 * ((MAX/DIV) + 1) + 1`, a function of the
fixed grid dimensions alone (`DIV > 0`, `MAX ≥ 0` hold by definition).  The
grid-dimension bound cannot be extended to arbitrary reference points
(`cex_C4`). -/
theorem claim_C4_amended (g : Grid) (reference : Pt) :
    (nnLoop g reference (fuelFor reference)
        (hash_func (reference.get 0)) (hash_func (reference.get 1))
        (hash_func (reference.get 0)) (hash_func (reference.get 1))
        initSt).isSome = true ∧
      (0 ≤ reference.get 0 → reference.get 0 ≤ MAX →
        0 ≤ reference.get 1 → reference.get 1 ≤ MAX →
        fuelFor reference ≤ gridDimFuel) := by
  constructor
  · apply nnLoop_isSome
    simp only [fuelFor]
    omega
  · intro h1 h2 h3 h4
    obtain ⟨a1, a2⟩ := hash_bounds _ h1 h2
    obtain ⟨b1, b2⟩ := hash_bounds _ h3 h4
    rw [hashMAX_eq] at a2 b2
    simp only [fuelFor, ringMeasure, hashMAX_eq, gridDimFuel]
    omega

/-- C4 witness: for the in-range reference `(0, 0)` the loop exits within its
fuel and the fuel obeys the grid-dimension bound. -/
theorem wit_C4 :
    (nnLoop emptyGrid ⟨0, 0⟩ (fuelFor ⟨0, 0⟩)
        (hash_func (Pt.get ⟨0, 0⟩ 0)) (hash_func (Pt.get ⟨0, 0⟩ 1))
        (hash_func (Pt.get ⟨0, 0⟩ 0)) (hash_func (Pt.get ⟨0, 0⟩ 1))
        initSt).isSome = true ∧
      fuelFor ⟨0, 0⟩ ≤ gridDimFuel :=
  ⟨(claim_C4_amended emptyGrid ⟨0, 0⟩).1,
    (claim_C4_amended emptyGrid ⟨0, 0⟩).2 (by decide) (by decide) (by decide)
      (by decide)⟩

/-- C6 counterexample grid: one point in cell `(0, 0)`. -/
def gC6 : Grid := insert emptyGrid ⟨0, 0⟩

/-- C6 counterexample: the window `[0..0] x [-5..-3]` lies entirely outside
the valid cell range on the `y` axis (`maxy = -3 < 0`), yet `find_nearest`
does not degenerate to an empty scan: the clamps pull both rows onto row 0,
whose point is scanned, and the output state changes. -/
theorem cex_C6 :
    (-3 : Int) < 0 ∧
      find_nearest gC6 0 (-3) 0 (-5) ⟨0, 0⟩ initSt ≠ initSt := by
  constructor
  · decide
  · decide

/-- C6 (amended): a window entirely outside the valid cell range on the `x`
axis (`maxx < 0` or `minx > hash_func MAX`) scans no point and leaves the
output state unchanged.  A window entirely outside only on the `y` axis is
instead clamped onto the boundary row, which is scanned (`cex_C6`): the
source clamps each bound one-sidedly, so only an empty `x` range makes the
column loop run zero times. -/
theorem claim_C6_amended (g : Grid) (maxx maxy minx miny : Int)
    (reference : Pt) (st : ScanSt)
    (h : maxx < 0 ∨ minx > hash_func MAX) :
    find_nearest g maxx maxy minx miny reference st = st := by
  have hnil : cellsScanned maxx maxy minx miny = [] := by
    rw [List.eq_nil_iff_forall_not_mem]
    intro c hc
    have hc2 : (c.1, c.2) ∈ cellsScanned maxx maxy minx miny := hc
    rw [mem_cellsScanned] at hc2
    rw [hashMAX_eq] at *
    omega
  rw [find_nearest, hnil]
  rfl

/-- C6 witness: a window with `maxx = -1` on a grid holding a point leaves
the scan state unchanged. -/
theorem wit_C6 :
    find_nearest gC6 (-1) 0 (-4) 0 ⟨0, 0⟩ initSt = initSt :=
  claim_C6_amended gC6 (-1) 0 (-4) 0 ⟨0, 0⟩ initSt (Or.inl (by decide))

end BasicSpatial

namespace BasicSpatial

/-- When an iteration's scan sets the found flag for the first time, the loop
performs exactly one more scan on the grown window and returns its candidate,
whatever fuel remains. -/
theorem nnLoop_found_step (g : Grid) (reference : Pt) (fuel : Nat)
    (curmaxx curmaxy curminx curminy : Int) (st : ScanSt)
    (h0 : st.fstset = false)
    (h1 : ¬(curmaxy > hash_func MAX ∧ curmaxx > hash_func MAX ∧
      curminx < 0 ∧ curminy < 0))
    (h2 : (find_nearest g curmaxx curmaxy curminx curminy reference st).fstset
      = true) :
    nnLoop g reference (fuel + 2) curmaxx curmaxy curminx curminy st =
      some (find_nearest g (curmaxx + 1) (curmaxy + 1) (curminx - 1)
        (curminy - 1) reference
        (find_nearest g curmaxx curmaxy curminx curminy reference st)).nearest := by
  have e1 : nnLoop g reference (fuel + 2) curmaxx curmaxy curminx curminy st
      = nnLoop g reference (fuel + 1) (curmaxx + 1) (curmaxy + 1)
          (curminx - 1) (curminy - 1)
          (find_nearest g (curmaxx + 1) (curmaxy + 1) (curminx - 1)
            (curminy - 1) reference
            (find_nearest g curmaxx curmaxy curminx curminy reference st)) := by
    simp only [nnLoop, h0, Bool.false_eq_true, if_false]
    rw [if_neg h1, if_pos h2]
  rw [e1]
  simp only [nnLoop]
  rw [if_pos (by
    rw [show find_nearest g curmaxx curmaxy curminx curminy reference st =
          scanPts reference
            ((cellsScanned curmaxx curmaxy curminx curminy).flatMap
              (fun c => g c.1 c.2)) st from rfl] at h2
    rw [show ∀ s : ScanSt,
          find_nearest g (curmaxx + 1) (curmaxy + 1) (curminx - 1)
            (curminy - 1) reference s =
          scanPts reference
            ((cellsScanned (curmaxx + 1) (curmaxy + 1) (curminx - 1)
              (curminy - 1)).flatMap (fun c => g c.1 c.2)) s from fun _ => rfl]
    exact scanPts_fstset_mono reference _ _ h2)]

/-- C7: whenever the window scan performed by an iteration of the loop sets
the found flag for the first time (the flag was clear, the sentinel check
did not fire, and the scan of the current window sets it), the loop performs
exactly one additional perimeter scan, on the window grown by one cell in
every direction, and then returns — for any remaining fuel — the candidate
accumulated over the scans; that candidate is one of the points examined by
the two scans and its distance to the reference is at most that of every
point examined by either scan. -/
theorem claim_C7 (g : Grid) (reference : Pt) (fuel : Nat)
    (curmaxx curmaxy curminx curminy : Int) (st : ScanSt)
    (h0 : st.fstset = false)
    (h1 : ¬(curmaxy > hash_func MAX ∧ curmaxx > hash_func MAX ∧
      curminx < 0 ∧ curminy < 0))
    (h2 : (find_nearest g curmaxx curmaxy curminx curminy reference st).fstset
      = true) :
    nnLoop g reference (fuel + 2) curmaxx curmaxy curminx curminy st =
      some (find_nearest g (curmaxx + 1) (curmaxy + 1) (curminx - 1)
        (curminy - 1) reference
        (find_nearest g curmaxx curmaxy curminx curminy reference st)).nearest ∧
    ((find_nearest g (curmaxx + 1) (curmaxy + 1) (curminx - 1) (curminy - 1)
        reference
        (find_nearest g curmaxx curmaxy curminx curminy reference st)).nearest ∈
      (cellsScanned curmaxx curmaxy curminx curminy).flatMap
        (fun c => g c.1 c.2) ++
      (cellsScanned (curmaxx + 1) (curmaxy + 1) (curminx - 1) (curminy - 1)).flatMap
        (fun c => g c.1 c.2)) ∧
    ∀ q ∈ (cellsScanned curmaxx curmaxy curminx curminy).flatMap
          (fun c => g c.1 c.2) ++
        (cellsScanned (curmaxx + 1) (curmaxy + 1) (curminx - 1) (curminy - 1)).flatMap
          (fun c => g c.1 c.2),
      ((find_nearest g (curmaxx + 1) (curmaxy + 1) (curminx - 1) (curminy - 1)
        reference
        (find_nearest g curmaxx curmaxy curminx curminy reference st)).nearest).distance
          reference ≤ q.distance reference := by
  have hfn1 : find_nearest g curmaxx curmaxy curminx curminy reference st =
      scanPts reference
        ((cellsScanned curmaxx curmaxy curminx curminy).flatMap
          (fun c => g c.1 c.2)) st := rfl
  have hfn2 : ∀ s : ScanSt,
      find_nearest g (curmaxx + 1) (curmaxy + 1) (curminx - 1) (curminy - 1)
        reference s =
      scanPts reference
        ((cellsScanned (curmaxx + 1) (curmaxy + 1) (curminx - 1)
          (curminy - 1)).flatMap (fun c => g c.1 c.2)) s := fun _ => rfl
  have hne : (cellsScanned curmaxx curmaxy curminx curminy).flatMap
      (fun c => g c.1 c.2) ≠ [] := by
    intro hnil
    rw [hfn1, hnil] at h2
    simp only [scanPts] at h2
    rw [h0] at h2
    cases h2
  obtain ⟨a1, a2, a3, a4⟩ := scanPts_unset reference
    ((cellsScanned curmaxx curmaxy curminx curminy).flatMap
      (fun c => g c.1 c.2)) st h0 hne
  obtain ⟨b1, b2, b3, b4, b5⟩ := scanPts_good reference
    ((cellsScanned (curmaxx + 1) (curmaxy + 1) (curminx - 1)
      (curminy - 1)).flatMap (fun c => g c.1 c.2))
    (scanPts reference
      ((cellsScanned curmaxx curmaxy curminx curminy).flatMap
        (fun c => g c.1 c.2)) st) a1 a2
  refine ⟨?_, ?_, ?_⟩
  · exact nnLoop_found_step g reference fuel curmaxx curmaxy curminx curminy st
      h0 h1 h2
  · rw [hfn2, hfn1]
    rcases b4 with h | h
    · rw [h]
      exact List.mem_append_left _ a3
    · exact List.mem_append_right _ h
  · intro q hq
    rw [hfn2, hfn1, ← b2]
    rcases List.mem_append.mp hq with h | h
    · exact le_trans b3 (a4 q h)
    · exact b5 q h

/-- C7 witness grid: one point in cell `(0, 0)`. -/
def gC7 : Grid := insert emptyGrid ⟨0, 0⟩

/-- C7 witness: from the degenerate window at the origin on a grid whose
only point sits in the home cell, the first scan finds it, one extra scan
runs, and the loop returns that point with two units of fuel. -/
theorem wit_C7 : nnLoop gC7 ⟨0, 0⟩ 2 0 0 0 0 initSt = some ⟨0, 0⟩ := by
  have h := (claim_C7 gC7 ⟨0, 0⟩ 0 0 0 0 0 initSt rfl (by decide) (by decide)).1
  rw [h]
  decide

end BasicSpatial

namespace BasicSpatial

/-- C1 counterexample grid: the single point `(50, 10)`, stored in cell
`(5, 1)`. -/
def gC1 : Grid := insert emptyGrid ⟨50, 10⟩

set_option maxRecDepth 8000 in
/-- C1 counterexample: the structure holding exactly the point `(50, 10)`
(cell `(5, 1)`) is non-empty, yet `nearest_neighbor` for the reference
`(0, 0)` (home cell `(0, 0)`) does not return a stored point of minimal
distance: cell `(5, 1)` is horizontally farther from the home cell than
vertically, the row-only ring scan never reads it, and the search exhausts
the grid and returns the sentinel `(-1, -1)`, which is not stored at all. -/
theorem cex_C1 :
    storedPoints gC1 ≠ [] ∧
      ¬ isTrueNN gC1 ⟨0, 0⟩ (nearest_neighbor gC1 ⟨0, 0⟩) := by
  constructor
  · decide
  · rw [isTrueNN]
    decide

/-- C1 (amended): if the reference's home cell is a valid grid cell and
every stored point lies in that home cell (with at least one stored point),
then `nearest_neighbor` returns a stored point whose distance to the
reference is at most the distance of every stored point — the true nearest
neighbor.  The unrestricted claim is false (`cex_C1`): the shipped ring
scan covers only the top and bottom rows of each window, so a stored point
whose cell is horizontally farther from the home cell than vertically is
never examined, and the search can miss the true nearest neighbor or even
return the sentinel on a non-empty structure. -/
theorem claim_C1_amended (g : Grid) (reference : Pt)
    (hx0 : 0 ≤ hash_func (reference.get 0))
    (hx1 : hash_func (reference.get 0) ≤ hash_func MAX)
    (hy0 : 0 ≤ hash_func (reference.get 1))
    (hy1 : hash_func (reference.get 1) ≤ hash_func MAX)
    (hne : g (hash_func (reference.get 0)) (hash_func (reference.get 1)) ≠ [])
    (honly : ∀ i j : Int,
      ¬(i = hash_func (reference.get 0) ∧ j = hash_func (reference.get 1)) →
      g i j = []) :
    isTrueNN g reference (nearest_neighbor g reference) := by
  set hx := hash_func (reference.get 0) with hhx
  set hy := hash_func (reference.get 1) with hhy
  rw [hashMAX_eq] at hx1 hy1
  have hsub : ∀ (maxx maxy minx miny : Int) (p : Pt),
      p ∈ (cellsScanned maxx maxy minx miny).flatMap (fun c => g c.1 c.2) →
      p ∈ g hx hy := by
    intro maxx maxy minx miny p hp
    rw [List.mem_flatMap] at hp
    obtain ⟨c, _, hp⟩ := hp
    by_cases h : c.1 = hx ∧ c.2 = hy
    · obtain ⟨h1, h2⟩ := h
      rw [h1, h2] at hp
      exact hp
    · rw [honly c.1 c.2 h] at hp
      cases hp
  have hhome : (hx, hy) ∈ cellsScanned hx hy hx hy := by
    rw [mem_cellsScanned, hashMAX_eq]
    omega
  obtain ⟨p0, hp0⟩ := List.exists_mem_of_ne_nil _ hne
  have hne1 : (cellsScanned hx hy hx hy).flatMap (fun c => g c.1 c.2) ≠ [] :=
    List.ne_nil_of_mem (List.mem_flatMap.mpr ⟨(hx, hy), hhome, hp0⟩)
  have hsup : ∀ q ∈ g hx hy,
      q ∈ (cellsScanned hx hy hx hy).flatMap (fun c => g c.1 c.2) :=
    fun q hq => List.mem_flatMap.mpr ⟨(hx, hy), hhome, hq⟩
  obtain ⟨a1, a2, a3, a4⟩ := scanPts_unset reference
    ((cellsScanned hx hy hx hy).flatMap (fun c => g c.1 c.2)) initSt rfl hne1
  obtain ⟨b1, b2, b3, b4, b5⟩ := scanPts_good reference
    ((cellsScanned (hx + 1) (hy + 1) (hx - 1) (hy - 1)).flatMap
      (fun c => g c.1 c.2))
    (scanPts reference
      ((cellsScanned hx hy hx hy).flatMap (fun c => g c.1 c.2)) initSt) a1 a2
  have hnn : nearest_neighbor g reference =
      (scanPts reference
        ((cellsScanned (hx + 1) (hy + 1) (hx - 1) (hy - 1)).flatMap
          (fun c => g c.1 c.2))
        (scanPts reference
          ((cellsScanned hx hy hx hy).flatMap (fun c => g c.1 c.2))
          initSt)).nearest := by
    have h2 : (find_nearest g hx hy hx hy reference initSt).fstset = true := by
      rw [show find_nearest g hx hy hx hy reference initSt =
            scanPts reference
              ((cellsScanned hx hy hx hy).flatMap (fun c => g c.1 c.2))
              initSt from rfl]
      exact a1
    have hsent : ¬(hy > hash_func MAX ∧ hx > hash_func MAX ∧
        hx < 0 ∧ hy < 0) := by
      rw [hashMAX_eq]
      omega
    obtain ⟨n, hn⟩ : ∃ n, ringMeasure hx hy hx hy = n + 1 :=
      ⟨ringMeasure hx hy hx hy - 1, by simp only [ringMeasure]; omega⟩
    have hstep := nnLoop_found_step g reference n hx hy hx hy initSt rfl
      hsent h2
    simp only [nearest_neighbor, fuelFor, ← hhx, ← hhy, hn]
    rw [show n + 1 + 1 = n + 2 from rfl, hstep]
    simp only [find_nearest, Option.getD_some]
  rw [isTrueNN, hnn]
  constructor
  · have hmem_l : (scanPts reference
        ((cellsScanned (hx + 1) (hy + 1) (hx - 1) (hy - 1)).flatMap
          (fun c => g c.1 c.2))
        (scanPts reference
          ((cellsScanned hx hy hx hy).flatMap (fun c => g c.1 c.2))
          initSt)).nearest ∈ g hx hy := by
      rcases b4 with h | h
      · rw [h]
        exact hsub _ _ _ _ _ a3
      · exact hsub _ _ _ _ _ h
    rw [storedPoints, List.mem_flatMap]
    refine ⟨hx.toNat, ?_, ?_⟩
    · rw [List.mem_range, hashMAX_eq]
      omega
    · rw [List.mem_flatMap]
      refine ⟨hy.toNat, ?_, ?_⟩
      · rw [List.mem_range, hashMAX_eq]
        omega
      · rw [Int.toNat_of_nonneg hx0, Int.toNat_of_nonneg hy0]
        exact hmem_l
  · intro q hq
    have hq_l : q ∈ g hx hy := by
      rw [storedPoints, List.mem_flatMap] at hq
      obtain ⟨i, hi, hq⟩ := hq
      rw [List.mem_flatMap] at hq
      obtain ⟨j, hj, hq⟩ := hq
      by_cases h : (i : Int) = hx ∧ (j : Int) = hy
      · obtain ⟨h1, h2⟩ := h
        rw [h1, h2] at hq
        exact hq
      · rw [honly _ _ h] at hq
        cases hq
    rw [← b2]
    exact le_trans b3 (a4 q (hsup q hq_l))

/-- C1 witness grid: the single point `(5, 5)`, stored in the home cell
`(0, 0)` of the reference `(0, 0)`. -/
def gW1 : Grid := insert emptyGrid ⟨5, 5⟩

/-- C1 witness: with the single stored point `(5, 5)` in the reference's
home cell, `nearest_neighbor` of `(0, 0)` returns a stored point of minimal
distance. -/
theorem wit_C1 : isTrueNN gW1 ⟨0, 0⟩ (nearest_neighbor gW1 ⟨0, 0⟩) :=
  claim_C1_amended gW1 ⟨0, 0⟩ (by decide) (by decide) (by decide) (by decide)
    (by decide)
    (fun i j h => by
      have hcell : ∀ a b : Int, gW1 a b =
          if a = 0 ∧ b = 0 then [⟨5, 5⟩] else [] := fun a b => rfl
      rw [hcell, if_neg (by simpa using h)])

end BasicSpatial
